import Mathlib

/-!
Verification development for the fsdb filesystem key-value store.

The definitions below are a shallow embedding of the Go source:
  - `local/local.go` (Read, Write, Delete of the local engine),
  - `local/options.go` (GetDirForKey hash-to-path rule),
  - `remote/remote.go` (hybrid Delete, uploadKey, startScanLoop),
  - `errbatch/errbatch.go` (Error, Add, Compile).

Bytes are modelled as `List Nat` (each element a byte value), filesystem
state as a map from entry-directory path to the files inside it, and the
gzip codec (an external standard library collaborator of this repository)
as an injective encoding with a decoding inverse: compressed output is the
two gzip magic bytes followed by the payload, and decoding strips them.
The compression level only gates success, mirroring
gzip.NewWriterLevel which rejects levels outside [-2, 9].
-/

namespace Fsdb

/-- A key is an opaque byte sequence (fsdb.Key in interface/key.go). -/
def Key := List Nat
deriving DecidableEq, Inhabited

/-- Value bytes. -/
def Bytes := List Nat
deriving DecidableEq, Inhabited

/-- Model of gzip compression of the external gzip library: the gzip magic
bytes followed by the raw payload. The content shape is abstracted; what
the store relies on is that decompression inverts compression. -/
def gzipCompress (v : Bytes) : Bytes :=
  31 :: 139 :: v

/-- Model of gzip decompression; fails on input that does not carry the
gzip magic bytes (gzip.NewReader returns an error on a bad header). -/
def gzipDecompress : Bytes → Option Bytes
  | 31 :: 139 :: v => some v
  | _ => none

/-- gzip.NewWriterLevel accepts levels -2 (HuffmanOnly) through 9
(BestCompression) and errors otherwise. -/
def gzipLevelValid (level : Int) : Bool :=
  -2 ≤ level && level ≤ 9

/-- State of the `key` file of an entry as seen through os.Lstat:
absent (Lstat fails with a not-exist error), present with content
(Lstat succeeds), or failing Lstat with an error that is not a
not-exist error (for example permission denied); in the last case the
file content at rest is still carried for bookkeeping. -/
inductive KeyFileState where
  | absent
  | present (b : Key)
  | statError (b : Key)
deriving DecidableEq, Inhabited

/-- One entry directory on disk: the `key` file and the two data file
variants `data` and `data.gz` (local/local.go filename constants). -/
structure Entry where
  keyFile : KeyFileState
  dataFile : Option Bytes
  gzFile : Option Bytes
deriving DecidableEq, Inhabited

/-- The empty entry directory: no files. -/
def Entry.empty : Entry := ⟨KeyFileState.absent, none, none⟩

/-- Local filesystem state: the entry stored under each entry-directory
path. Paths not holding an entry map to the empty entry. -/
def FS := String → Entry

/-- Update the entry at one directory path. -/
def FS.update (fs : FS) (dir : String) (e : Entry) : FS :=
  fun d => if d = dir then e else fs d

/-- os.PathSeparator on the target platform. -/
def pathSep : String := "/"

/-- charsPerLevel in local/options.go. -/
def charsPerLevel : Nat := 2

/-- Options consumed by the local engine (local/options.go), with the
hash function modelled as the digest bytes it produces for a key. -/
structure Options where
  dataDir : String
  hashFunc : Key → List Nat
  dirLevel : Nat
  useGzip : Bool
  gzipLevel : Int

/-- Lowercase hex digit for a value below 16 (encoding/hex). -/
def hexDigit (n : Nat) : Char :=
  if n < 10 then Char.ofNat (48 + n) else Char.ofNat (87 + n)

/-- hex.EncodeToString: two lowercase hex characters per byte, high
nibble first. -/
def hexEncode : List Nat → List Char
  | [] => []
  | b :: bs => hexDigit (b / 16 % 16) :: hexDigit (b % 16) :: hexEncode bs

/-- The loop of GetDirForKey in local/options.go: for each of the
configured levels append the first two remaining hex characters and a
path separator, dropping them from the hex string, and stop once the hex
string is exhausted. In the source the slice hashString[:2] would panic
on a string shorter than two characters; that input cannot arise because
hex-encoded digests have even positive length, and this model is only
compared with the source on such inputs. -/
def dirForKeyLoop : Nat → String → List Char → String × List Char
  | 0, path, hs => (path, hs)
  | Nat.succ i, path, hs =>
    let path' := path ++ String.mk (hs.take charsPerLevel) ++ pathSep
    let hs' := hs.drop charsPerLevel
    if hs'.length = 0 then (path', hs') else dirForKeyLoop i path' hs'

/-- GetDirForKey in local/options.go: hex-encode the hash of the key,
run the level loop from the root data directory, then append any
remaining hex characters as one final directory component. -/
def GetDirForKey (opts : Options) (key : Key) : String :=
  let hashString := hexEncode (opts.hashFunc key)
  let pr := dirForKeyLoop opts.dirLevel opts.dataDir hashString
  if pr.2.length > 0 then pr.1 ++ String.mk pr.2 ++ pathSep else pr.1

/-- Errors surfaced by the local engine. -/
inductive Err where
  | noSuchKey (key : Key)
  | keyCollision (newKey oldKey : Key)
  | corruptGzip
  | invalidGzipLevel
  | ioError
deriving DecidableEq

/-- checkKeyCollision in local/local.go: read the stored key file and
compare; equal keys pass, different keys give a KeyCollisionError
carrying the new and old keys. Reading a key file whose Lstat failed
with a non-not-exist error fails as an I/O error (os.Open fails). -/
def checkKeyCollision (key : Key) (kf : KeyFileState) : Option Err :=
  match kf with
  | KeyFileState.absent => some Err.ioError
  | KeyFileState.statError _ => some Err.ioError
  | KeyFileState.present old =>
    if key = old then none else some (Err.keyCollision key old)

/-- readPlain in local/local.go: the `data` file bytes, or a not-exist
error represented here by `none`. -/
def readPlain (e : Entry) : Option Bytes :=
  e.dataFile

/-- readGzip in local/local.go: open `data.gz` and decompress; absent
file is a not-exist error (`none`), a bad gzip header is a distinct
corruption error. -/
def readGzip (e : Entry) : Option (Except Err Bytes) :=
  match e.gzFile with
  | none => none
  | some b =>
    match gzipDecompress b with
    | some v => some (Except.ok v)
    | none => some (Except.error Err.corruptGzip)

/-- Read in local/local.go (context cancellation elided): resolve the
entry directory, require the key file, check for key collision, then
probe the data variant matching the compression preference first and
fall back to the other variant when the preferred one is absent; when
both are absent return NoSuchKey. -/
def Read (opts : Options) (fs : FS) (key : Key) : Except Err Bytes :=
  let dir := GetDirForKey opts key
  let e := fs dir
  match e.keyFile with
  | KeyFileState.absent => Except.error (Err.noSuchKey key)
  | kf =>
    match checkKeyCollision key kf with
    | some err => Except.error err
    | none =>
      if opts.useGzip then
        match readGzip e with
        | some r => r
        | none =>
          match readPlain e with
          | some v => Except.ok v
          | none => Except.error (Err.noSuchKey key)
      else
        match readPlain e with
        | some v => Except.ok v
        | none =>
          match readGzip e with
          | some r => r
          | none => Except.error (Err.noSuchKey key)

/-- Write in local/local.go (context cancellation elided): check for key
collision only when Lstat of the destination key file succeeds; stage
the key and the value (gzip-compressed when the option is on, failing on
an invalid gzip level); rename the staged data file into place; remove
the other-variant data file; rename the staged key file into place.
Returns the filesystem after the call and the error if any; error paths
leave the store unchanged because staging happens in the temp directory,
which is removed on every exit path. -/
def Write (opts : Options) (fs : FS) (key : Key) (v : Bytes) :
    FS × Option Err :=
  let dir := GetDirForKey opts key
  let e := fs dir
  match e.keyFile with
  | KeyFileState.present old =>
    if key = old then
      writeData opts fs dir key v
    else
      (fs, some (Err.keyCollision key old))
  | _ => writeData opts fs dir key v
where
  /-- The staging and renaming part of Write, after the collision check. -/
  writeData (opts : Options) (fs : FS) (dir : String) (key : Key)
      (v : Bytes) : FS × Option Err :=
    if opts.useGzip then
      if gzipLevelValid opts.gzipLevel then
        (fs.update dir ⟨KeyFileState.present key, none, some (gzipCompress v)⟩,
          none)
      else
        (fs, some Err.invalidGzipLevel)
    else
      (fs.update dir ⟨KeyFileState.present key, some v, none⟩, none)

/-- Delete in local/local.go: require the key file, check for key
collision, then remove the whole entry directory. -/
def Delete (opts : Options) (fs : FS) (key : Key) : FS × Option Err :=
  let dir := GetDirForKey opts key
  let e := fs dir
  match e.keyFile with
  | KeyFileState.absent => (fs, some (Err.noSuchKey key))
  | kf =>
    match checkKeyCollision key kf with
    | some err => (fs, some err)
    | none => (fs.update dir Entry.empty, none)

/-! ## CRC-32C (hash/crc32 with the Castagnoli table, used by remote/remote.go) -/

/-- The reflected Castagnoli polynomial (crc32.Castagnoli). -/
def crc32cPoly : Nat := 0x82F63B78

/-- One reflected CRC bit step: shift right, conditionally xor the
polynomial. -/
def crc32cBits : Nat → Nat → Nat
  | 0, c => c
  | Nat.succ n, c =>
    crc32cBits n (if c % 2 = 1 then (c / 2) ^^^ crc32cPoly else c / 2)

/-- crc32.Checksum over the Castagnoli table: initial value all-ones,
xor in each byte and run eight bit steps, final complement. -/
def crc32c (bs : List Nat) : Nat :=
  (bs.foldl (fun c b => crc32cBits 8 (c ^^^ b % 256)) 0xFFFFFFFF) ^^^
    0xFFFFFFFF

/-! ## ErrBatch (errbatch/errbatch.go) -/

/-- Errors at the hybrid tier: an error of the local engine (including
NoSuchKeyError, shared between the tiers), a bucket driver error with
its IsNotExist classification and message, or an ErrBatch holding a list
of errors. -/
inductive HErr where
  | fsdbErr (e : Err)
  | bucketErr (notExist : Bool) (msg : String)
  | batch (errs : List HErr)

mutual

/-- ErrBatch.Add: adding an ErrBatch adds its members instead (flattening
recursively); a plain error is appended. The nil case is handled by
`errBatchAddOpt`. -/
def errBatchAdd : List HErr → HErr → List HErr
  | acc, HErr.batch es => errBatchAddList acc es
  | acc, HErr.fsdbErr e => acc ++ [HErr.fsdbErr e]
  | acc, HErr.bucketErr ne m => acc ++ [HErr.bucketErr ne m]

/-- The loop inside ErrBatch.Add over a nested batch. -/
def errBatchAddList : List HErr → List HErr → List HErr
  | acc, [] => acc
  | acc, e :: rest => errBatchAddList (errBatchAdd acc e) rest

end

/-- ErrBatch.Add on a possibly nil error: nil errors are skipped. -/
def errBatchAddOpt (acc : List HErr) : Option HErr → List HErr
  | none => acc
  | some e => errBatchAdd acc e

/-- ErrBatch.Compile: nil for zero errors, the sole error for exactly
one, the batch itself otherwise. -/
def errBatchCompile : List HErr → Option HErr
  | [] => none
  | [e] => some e
  | es => some (HErr.batch es)

/-- The loop of ErrBatch.Error over the member messages with their
index: the first member is preceded by a colon, later ones by a
semicolon. -/
def errBatchLoop : List String → Nat → String → String
  | [], _, buf => buf
  | m :: rest, i, buf =>
    errBatchLoop rest (i + 1) (buf ++ (if i = 0 then ": " else "; ") ++ m)

/-- ErrBatch.Error: the header naming the member count followed by the
member messages. -/
def errBatchMessage (msgs : List String) : String :=
  errBatchLoop msgs 0
    ("total " ++ toString msgs.length ++ " error(s) in this batch")

/-- Joining a list of messages with a semicolon-space separator; this is
the claim-side reading of the batch display. -/
def joinSemicolon : List String → String
  | [] => ""
  | [m] => m
  | m :: rest => m ++ "; " ++ joinSemicolon rest

/-! ## Hybrid tier (remote/remote.go) -/

/-- fsdb.IsNoSuchKeyError on the result of the local Delete. -/
def isLocalNotExist : Option Err → Bool
  | some (Err.noSuchKey _) => true
  | _ => false

/-- bucket.IsNotExist on the result of the bucket Delete, where a bucket
error is modelled as its driver IsNotExist classification and its
message; a nil error is not a not-exist error. -/
def isBucketNotExist : Option (Bool × String) → Bool
  | some (ne, _) => ne
  | none => false

/-- Delete in remote/remote.go: attempt the local Delete and the bucket
Delete independently; a tier whose result is not a not-exist error marks
the key as existing there and contributes its error (ErrBatch.Add skips
nil) to the batch; when both tiers reported not-exist return
NoSuchKeyError, otherwise compile the batch. The two tier results are
parameters since the two calls are independent of each other. -/
def hybridDelete (key : Key) (localRes : Option Err)
    (bucketRes : Option (Bool × String)) : Option HErr :=
  let localNotExist := isLocalNotExist localRes
  let acc1 := if localNotExist then ([] : List HErr)
    else errBatchAddOpt [] (localRes.map HErr.fsdbErr)
  let bucketNotExist := isBucketNotExist bucketRes
  let acc2 := if bucketNotExist then acc1
    else errBatchAddOpt acc1 (bucketRes.map (fun p => HErr.bucketErr p.1 p.2))
  if localNotExist && bucketNotExist then
    some (HErr.fsdbErr (Err.noSuchKey key))
  else errBatchCompile acc2

/-- Claim-side reading of the hybrid Delete: the list of non-not-exist
errors reported by the two tiers. -/
def specNonNotExistErrs (localRes : Option Err)
    (bucketRes : Option (Bool × String)) : List HErr :=
  (match localRes with
   | some (Err.noSuchKey _) => []
   | some e => [HErr.fsdbErr e]
   | none => []) ++
  (match bucketRes with
   | some (true, _) => []
   | some (false, m) => [HErr.bucketErr false m]
   | none => [])

/-- Claim-side reading of the hybrid Delete result: NoSuchKey exactly
when both tiers report not-exist; otherwise nil for no non-not-exist
error, the sole such error, or a batch of them. -/
def specDeleteCombine (key : Key) (localRes : Option Err)
    (bucketRes : Option (Bool × String)) : Option HErr :=
  if isLocalNotExist localRes && isBucketNotExist bucketRes then
    some (HErr.fsdbErr (Err.noSuchKey key))
  else
    match specNonNotExistErrs localRes bucketRes with
    | [] => none
    | [e] => some e
    | es => some (HErr.batch es)

/-- Result of one run of uploadKey: the final local filesystem state,
the returned error, and whether the local Delete was invoked. -/
structure UploadOutcome where
  finalFS : FS
  err : Option HErr
  deletedLocal : Bool

/-- uploadKey in remote/remote.go: read the local value and its CRC-32C;
gzip it (BestCompression is a valid level, so the writer construction
succeeds) and write it to the bucket; re-read the local value and its
CRC; delete the local copy exactly when the second CRC equals the first,
otherwise leave the local copy in place. Because a concurrent Write may
change the value between the two local reads, the local store is
snapshotted as `fs1` at the first read and `fs2` at the second; the
bucket write result is a parameter. -/
def uploadKey (opts : Options) (key : Key) (fs1 fs2 : FS)
    (bucketWriteErr : Option (Bool × String)) : UploadOutcome :=
  match Read opts fs1 key with
  | Except.error e => ⟨fs2, some (HErr.fsdbErr e), false⟩
  | Except.ok v1 =>
    match bucketWriteErr with
    | some (ne, m) => ⟨fs2, some (HErr.bucketErr ne m), false⟩
    | none =>
      match Read opts fs2 key with
      | Except.error e => ⟨fs2, some (HErr.fsdbErr e), false⟩
      | Except.ok v2 =>
        if crc32c v2 = crc32c v1 then
          let r := Delete opts fs2 key
          ⟨r.1, r.2.map HErr.fsdbErr, true⟩
        else ⟨fs2, none, false⟩

/-! ## The upload scan loop (startScanLoop in remote/remote.go)

startScanLoop runs one scanner goroutine (the for/select loop over the
ticker) and a fixed pool of long-lived worker goroutines, connected by
an unbuffered channel. On a tick the scanner runs ScanKeys, which sends
each emitted key into the channel (a rendezvous: the send completes
exactly when an idle worker receives the key) and returns once every key
has been handed over; the scanner then loops back to the select and can
take the next tick. A worker that received a key processes it (skip
check or upload) and only then returns to receive again. The model below
is that interleaving structure, with an event log recording scan starts,
scan returns, key dispatches, and worker completions (most recent event
first); counters, logging, skip decisions and context cancellation are
irrelevant to cycle boundaries and are elided. -/

/-- Events of the scan loop. `scanStart c` is the scanner picking tick
`c` and entering ScanKeys; `scanEnd c` is ScanKeys returning; `disp c k`
is a worker receiving key `k` sent during cycle `c`; `fin c k` is that
worker finishing the key. -/
inductive Ev where
  | scanStart (c : Nat)
  | scanEnd (c : Nat)
  | disp (c : Nat) (k : Key)
  | fin (c : Nat) (k : Key)
deriving DecidableEq

/-- The scanner is either waiting on the ticker or inside ScanKeys with
the keys not yet handed to a worker. -/
inductive Phase where
  | idle
  | scanning (pending : List Key)
deriving DecidableEq

/-- State of the loop: number of cycles started, scanner phase, each
worker either idle or busy with the key it received (tagged with the
cycle that dispatched it), and the event log. -/
structure LoopState where
  cycle : Nat
  phase : Phase
  workers : List (Option (Nat × Key))
  evLog : List Ev

/-- Interleaving steps of startScanLoop. A tick starts the next scan
with the keys the walk will emit this cycle; a send hands the head
pending key to an idle worker (the unbuffered channel makes send and
receive one event); the scan returns once no key is pending; a busy
worker finishes its key at any time, independent of the scanner. -/
inductive LoopStep : LoopState → LoopState → Prop where
  | tick (c : Nat) (w : List (Option (Nat × Key))) (l : List Ev)
      (keys : List Key) :
      LoopStep ⟨c, Phase.idle, w, l⟩
        ⟨c + 1, Phase.scanning keys, w, Ev.scanStart (c + 1) :: l⟩
  | send (c : Nat) (k : Key) (rest : List Key)
      (w : List (Option (Nat × Key))) (l : List Ev) (i : Nat)
      (hi : w.get? i = some none) :
      LoopStep ⟨c, Phase.scanning (k :: rest), w, l⟩
        ⟨c, Phase.scanning rest, w.set i (some (c, k)), Ev.disp c k :: l⟩
  | scanRet (c : Nat) (w : List (Option (Nat × Key))) (l : List Ev) :
      LoopStep ⟨c, Phase.scanning [], w, l⟩
        ⟨c, Phase.idle, w, Ev.scanEnd c :: l⟩
  | finish (c : Nat) (ph : Phase) (w : List (Option (Nat × Key)))
      (l : List Ev) (i c0 : Nat) (k : Key)
      (hi : w.get? i = some (some (c0, k))) :
      LoopStep ⟨c, ph, w, l⟩ ⟨c, ph, w.set i none, Ev.fin c0 k :: l⟩

/-- The initial state with `n` idle workers, before the first tick. -/
def loopInit (n : Nat) : LoopState :=
  ⟨0, Phase.idle, List.replicate n none, []⟩

/-- States reachable by the loop with `n` workers. -/
def LoopReach (n : Nat) (s : LoopState) : Prop :=
  Relation.ReflTransGen LoopStep (loopInit n) s

/-- The claim-side reading of non-overlapping cycles: whenever the scan
of cycle `c + 1` has started, every key dispatched during cycle `c`
(an earlier event, hence in the log suffix below the start event) has
a matching finish event before that start. -/
def cycleDrained (s : LoopState) : Prop :=
  ∀ c k l1 l2, s.evLog = l1 ++ Ev.scanStart (c + 1) :: l2 →
    Ev.disp c k ∈ l2 → Ev.fin c k ∈ l2

/-- Scans of successive cycles are sequential: the scan of cycle `c + 1`
starts only after the scan of cycle `c` has returned. -/
def scanSequential (s : LoopState) : Prop :=
  ∀ c l1 l2, 1 ≤ c → s.evLog = l1 ++ Ev.scanStart (c + 1) :: l2 →
    Ev.scanEnd c ∈ l2

/-! ## Claim-side readings of the read-resolution and path rules -/

/-- The two data-file variants of an entry. -/
inductive Variant where
  | plain
  | gz
deriving DecidableEq

/-- Reading one variant of an entry: `none` when the file is absent,
otherwise the streamed bytes (decompressing for the gzip variant,
surfacing a corruption error on a bad header). -/
def readVariant : Variant → Entry → Option (Except Err Bytes)
  | Variant.plain, e => e.dataFile.map Except.ok
  | Variant.gz, e =>
    e.gzFile.map fun b =>
      match gzipDecompress b with
      | some v => Except.ok v
      | none => Except.error Err.corruptGzip

/-- Claim-side reading of the data-file resolution in Read: attempt the
variant matching the compression preference first; if that file is
absent fall back to the other variant; if both are absent the entry is
missing (NoSuchKey), not corrupt. -/
def specResolve (useGzip : Bool) (key : Key) (e : Entry) :
    Except Err Bytes :=
  let pref := if useGzip then Variant.gz else Variant.plain
  let other := if useGzip then Variant.plain else Variant.gz
  match readVariant pref e with
  | some r => r
  | none =>
    match readVariant other e with
    | some r => r
    | none => Except.error (Err.noSuchKey key)

/-- Claim-side reading of the hash-to-path rule: for each of the `L`
levels consume the first two remaining hex characters as one directory
component, stopping early when the hex string is exhausted; any
remaining hex characters form one final directory component. -/
def specComponents : Nat → List Char → List String
  | 0, hs => if hs.isEmpty then [] else [String.mk hs]
  | Nat.succ i, hs =>
    if hs.isEmpty then []
    else String.mk (hs.take charsPerLevel) ::
      specComponents i (hs.drop charsPerLevel)

/-- Concatenation of a list of strings. -/
def joinAll : List String → String
  | [] => ""
  | s :: rest => s ++ joinAll rest

/-- Claim-side reading of the entry directory path: the root data
directory followed by the components of the hash-to-path rule, each
ending in a path separator. -/
def specDirPath (opts : Options) (key : Key) : String :=
  opts.dataDir ++
    joinAll ((specComponents opts.dirLevel
      (hexEncode (opts.hashFunc key))).map (fun c => c ++ pathSep))

/-! ## Store invariants -/

/-- At most one of the `data` and `data.gz` files exists. -/
def entryAtMostOneVariant (e : Entry) : Prop :=
  e.dataFile = none ∨ e.gzFile = none

/-- An entry is valid iff its `key` file exists on disk. -/
def validEntry (e : Entry) : Prop :=
  e.keyFile ≠ KeyFileState.absent

/-- Every valid entry at rest holds at most one data variant. -/
def storeInvariant (fs : FS) : Prop :=
  ∀ d, validEntry (fs d) → entryAtMostOneVariant (fs d)

/-! ## Concrete fixtures used by witnesses -/

/-- A store with no entries. -/
def emptyFS : FS := fun _ => Entry.empty

/-- Options with a tiny constant two-byte hash, one directory level and
compression off. -/
def testOpts : Options := ⟨"data/", fun _ => [222, 173], 1, false, -1⟩

/-- The same options with gzip compression on. -/
def testOptsGz : Options := ⟨"data/", fun _ => [222, 173], 1, true, -1⟩

/-! ## Helper lemmas about Write -/

/-- A successful writeData stores the key file and exactly the variant
selected by the compression option, clearing the other variant. -/
theorem writeData_ok (opts : Options) (fs : FS) (dir : String) (key : Key)
    (v : Bytes) (fs' : FS)
    (h : Write.writeData opts fs dir key v = (fs', none)) :
    fs' = FS.update fs dir
      (if opts.useGzip then
        ⟨KeyFileState.present key, none, some (gzipCompress v)⟩
      else ⟨KeyFileState.present key, some v, none⟩) := by
  simp only [Write.writeData] at h
  by_cases hg : opts.useGzip
  · simp only [hg, if_true] at h ⊢
    by_cases hl : gzipLevelValid opts.gzipLevel
    · simp only [hl, if_true] at h
      exact (Prod.mk.injEq _ _ _ _ ▸ h).1.symm
    · simp only [hl, if_false] at h
      exact absurd (Prod.mk.injEq _ _ _ _ ▸ h).2 (by simp)
  · simp only [hg, if_false] at h ⊢
    simp only [Bool.false_eq_true, if_false] at h
    exact (Prod.mk.injEq _ _ _ _ ▸ h).1.symm

/-- A successful Write replaces the entry of the key with the freshly
staged key file and the single data variant selected by the compression
option, and touches no other entry. -/
theorem write_ok_state (opts : Options) (fs : FS) (key : Key) (v : Bytes)
    (fs' : FS) (h : Write opts fs key v = (fs', none)) :
    fs' = FS.update fs (GetDirForKey opts key)
      (if opts.useGzip then
        ⟨KeyFileState.present key, none, some (gzipCompress v)⟩
      else ⟨KeyFileState.present key, some v, none⟩) := by
  simp only [Write] at h
  split at h
  next old =>
    split at h
    · exact writeData_ok opts fs _ key v fs' h
    · exact absurd (Prod.mk.injEq _ _ _ _ ▸ h).2 (by simp)
  next hn => exact writeData_ok opts fs _ key v fs' h

/-- C1. For every key and byte sequence, after a successful local Write
the local Read succeeds and yields exactly the written bytes, whether or
not the gzip option is enabled at write time. -/
theorem write_read_roundtrip (opts : Options) (fs : FS) (key : Key)
    (v : Bytes) (fs' : FS) (h : Write opts fs key v = (fs', none)) :
    Read opts fs' key = Except.ok v := by
  have hfs := write_ok_state opts fs key v fs' h
  subst hfs
  by_cases hg : opts.useGzip
  · simp [Read, FS.update, hg, checkKeyCollision, readGzip, readPlain,
      gzipCompress, gzipDecompress]
  · simp [Read, FS.update, hg, checkKeyCollision, readGzip, readPlain]

/-- Witness for C1: a concrete write of bytes [1, 2, 3] under key [7]
reads back as [1, 2, 3], with gzip both off and on. -/
theorem write_read_roundtrip_witness :
    Read testOpts (Write testOpts emptyFS [7] [1, 2, 3]).1 [7] =
      Except.ok [1, 2, 3] ∧
    Read testOptsGz (Write testOptsGz emptyFS [7] [1, 2, 3]).1 [7] =
      Except.ok [1, 2, 3] := by
  constructor
  · exact write_read_roundtrip testOpts emptyFS [7] [1, 2, 3]
      (Write testOpts emptyFS [7] [1, 2, 3]).1 (Prod.ext rfl rfl)
  · exact write_read_roundtrip testOptsGz emptyFS [7] [1, 2, 3]
      (Write testOptsGz emptyFS [7] [1, 2, 3]).1 (Prod.ext rfl rfl)

/-- C2. A successful local Write leaves the entry with exactly the data
variant it wrote, removing the other variant, so the written entry holds
at most one of data and data.gz, and a store in which every valid entry
holds at most one variant still satisfies that invariant afterwards. -/
theorem write_single_variant (opts : Options) (fs : FS) (key : Key)
    (v : Bytes) (fs' : FS) (h : Write opts fs key v = (fs', none)) :
    fs' (GetDirForKey opts key) =
      (if opts.useGzip then
        ⟨KeyFileState.present key, none, some (gzipCompress v)⟩
      else ⟨KeyFileState.present key, some v, none⟩) ∧
    entryAtMostOneVariant (fs' (GetDirForKey opts key)) ∧
    (storeInvariant fs → storeInvariant fs') := by
  have hfs := write_ok_state opts fs key v fs' h
  subst hfs
  refine ⟨by simp [FS.update], ?_, ?_⟩
  · by_cases hg : opts.useGzip <;>
      simp [FS.update, entryAtMostOneVariant, hg]
  · intro hinv d
    by_cases hd : d = GetDirForKey opts key
    · subst hd
      by_cases hg : opts.useGzip <;>
        simp [FS.update, entryAtMostOneVariant, hg]
    · simpa [FS.update, hd] using hinv d

/-- Witness for C2: after a concrete gzip write over a store that
previously held a plain variant for the same key, the entry holds only
the gzip variant. -/
theorem write_single_variant_witness :
    (Write testOptsGz (Write testOpts emptyFS [7] [1]).1 [7] [2]).1
        (GetDirForKey testOptsGz [7]) =
      ⟨KeyFileState.present [7], none, some (gzipCompress [2])⟩ ∧
    entryAtMostOneVariant
      ((Write testOptsGz (Write testOpts emptyFS [7] [1]).1 [7] [2]).1
        (GetDirForKey testOptsGz [7])) ∧
    (storeInvariant (Write testOpts emptyFS [7] [1]).1 →
      storeInvariant
        (Write testOptsGz (Write testOpts emptyFS [7] [1]).1 [7] [2]).1) := by
  have := write_single_variant testOptsGz (Write testOpts emptyFS [7] [1]).1
    [7] [2] (Write testOptsGz (Write testOpts emptyFS [7] [1]).1 [7] [2]).1
    (Prod.ext rfl rfl)
  simpa using this

/-- C4. When the destination key file exists and holds different bytes,
Write returns a KeyCollision error carrying the requested and stored
keys and leaves the whole store unchanged. -/
theorem write_key_collision (opts : Options) (fs : FS) (key : Key)
    (v : Bytes) (old : Key)
    (hk : (fs (GetDirForKey opts key)).keyFile = KeyFileState.present old)
    (hne : old ≠ key) :
    Write opts fs key v = (fs, some (Err.keyCollision key old)) := by
  simp only [Write, hk]
  rw [if_neg (fun he => hne he.symm)]

/-- Witness for C4: writing key [9] where key [7] (same hash) is stored
surfaces the collision with both keys and changes nothing. -/
theorem write_key_collision_witness :
    Write testOpts (Write testOpts emptyFS [7] [1]).1 [9] [2] =
      ((Write testOpts emptyFS [7] [1]).1,
        some (Err.keyCollision [9] [7])) := by
  exact write_key_collision testOpts (Write testOpts emptyFS [7] [1]).1
    [9] [2] [7] rfl (by decide)

/-- C10. When Lstat of the destination key file fails with an error that
is not a not-exist error, Write skips the key-collision check entirely
and proceeds with the full write pipeline over the existing entry; in
particular it can never return a KeyCollision error. -/
theorem write_stat_error_skips_collision_check (opts : Options) (fs : FS)
    (key : Key) (v : Bytes) (b : Key)
    (hk : (fs (GetDirForKey opts key)).keyFile = KeyFileState.statError b) :
    Write opts fs key v =
      Write.writeData opts fs (GetDirForKey opts key) key v ∧
    ∀ k1 k2, (Write opts fs key v).2 ≠ some (Err.keyCollision k1 k2) := by
  have heq : Write opts fs key v =
      Write.writeData opts fs (GetDirForKey opts key) key v := by
    simp only [Write, hk]
  refine ⟨heq, fun k1 k2 => ?_⟩
  rw [heq]
  simp only [Write.writeData]
  by_cases hg : opts.useGzip
  · by_cases hl : gzipLevelValid opts.gzipLevel <;> simp [hg, hl]
  · simp [hg]

/-- Witness for C10: over an entry whose key file holds bytes [9] but
fails Lstat, writing key [7] (different bytes, same hash) succeeds and
overwrites instead of reporting a collision. -/
theorem write_stat_error_witness :
    Write testOpts
        (FS.update emptyFS (GetDirForKey testOpts [7])
          ⟨KeyFileState.statError [9], some [5], none⟩) [7] [1] =
      Write.writeData testOpts
        (FS.update emptyFS (GetDirForKey testOpts [7])
          ⟨KeyFileState.statError [9], some [5], none⟩)
        (GetDirForKey testOpts [7]) [7] [1] ∧
    ∀ k1 k2,
      (Write testOpts
        (FS.update emptyFS (GetDirForKey testOpts [7])
          ⟨KeyFileState.statError [9], some [5], none⟩) [7] [1]).2 ≠
        some (Err.keyCollision k1 k2) := by
  exact write_stat_error_skips_collision_check testOpts
    (FS.update emptyFS (GetDirForKey testOpts [7])
      ⟨KeyFileState.statError [9], some [5], none⟩) [7] [1] [9] (by
        simp [FS.update])

/-- C3. When the key file is present and matches, Read resolves the
data file exactly as the preference-then-fallback rule: probe the
variant matching the compression preference first, fall back to the
other variant when absent, and report NoSuchKey (not corruption) when
neither data nor data.gz exists. -/
theorem read_resolution (opts : Options) (fs : FS) (key : Key)
    (hk : (fs (GetDirForKey opts key)).keyFile = KeyFileState.present key) :
    Read opts fs key =
      specResolve opts.useGzip key (fs (GetDirForKey opts key)) := by
  simp only [Read, hk, checkKeyCollision, if_pos rfl]
  by_cases hg : opts.useGzip
  · cases hgz : (fs (GetDirForKey opts key)).gzFile with
    | none =>
      cases hd : (fs (GetDirForKey opts key)).dataFile <;>
        simp [specResolve, readVariant, readGzip, readPlain, hg, hgz, hd]
    | some b =>
      cases hdec : gzipDecompress b <;>
        simp [specResolve, readVariant, readGzip, readPlain, hg, hgz, hdec]
  · cases hd : (fs (GetDirForKey opts key)).dataFile with
    | none =>
      cases hgz : (fs (GetDirForKey opts key)).gzFile with
      | none =>
        simp [specResolve, readVariant, readGzip, readPlain, hg, hd, hgz]
      | some b =>
        cases hdec : gzipDecompress b <;>
          simp [specResolve, readVariant, readGzip, readPlain, hg, hd,
            hgz, hdec]
    | some v => simp [specResolve, readVariant, readGzip, readPlain, hg, hd]

/-- Witness for C3: a concrete entry whose key file is present but which
has neither data nor data.gz resolves to NoSuchKey, through the theorem
and by direct evaluation. -/
theorem read_resolution_witness :
    Read testOpts
        (FS.update emptyFS (GetDirForKey testOpts [7])
          ⟨KeyFileState.present [7], none, none⟩) [7] =
      specResolve false [7]
        ((FS.update emptyFS (GetDirForKey testOpts [7])
          ⟨KeyFileState.present [7], none, none⟩)
          (GetDirForKey testOpts [7])) ∧
    Read testOpts
        (FS.update emptyFS (GetDirForKey testOpts [7])
          ⟨KeyFileState.present [7], none, none⟩) [7] =
      Except.error (Err.noSuchKey [7]) := by
  refine ⟨read_resolution testOpts _ [7] rfl, ?_⟩
  simp [Read, FS.update, checkKeyCollision, readGzip, readPlain]

/-! ## Helper lemmas for the hash-to-path rule -/

theorem hexEncode_length (bs : List Nat) :
    (hexEncode bs).length = 2 * bs.length := by
  induction bs with
  | nil => rfl
  | cons b bs ih => simp [hexEncode, ih]; omega

theorem specComponents_nil (n : Nat) : specComponents n [] = [] := by
  cases n <;> rfl

/-- The level loop of GetDirForKey agrees with the claim-side component
rule on hex strings of even positive length. -/
theorem dirForKeyLoop_spec (n : Nat) :
    ∀ (hs : List Char) (path : String), hs.length % 2 = 0 → hs ≠ [] →
    (if (dirForKeyLoop n path hs).2.length > 0 then
      (dirForKeyLoop n path hs).1 ++
        String.mk (dirForKeyLoop n path hs).2 ++ pathSep
     else (dirForKeyLoop n path hs).1) =
    path ++ joinAll ((specComponents n hs).map (fun c => c ++ pathSep)) := by
  induction n with
  | zero =>
    intro hs path heven hne
    have hlen : hs.length > 0 := List.length_pos.mpr hne
    simp [dirForKeyLoop, specComponents, joinAll, hlen,
      List.isEmpty_eq_false_iff_exists_mem, hne,
      String.append_empty, String.append_assoc]
  | succ n ih =>
    intro hs path heven hne
    have hlen : hs.length > 0 := List.length_pos.mpr hne
    by_cases hd2 : (hs.drop charsPerLevel).length = 0
    · have hnil : specComponents n (hs.drop charsPerLevel) = [] := by
        have h0 : hs.drop charsPerLevel = [] := List.length_eq_zero.mp hd2
        rw [h0, specComponents_nil]
      simp [dirForKeyLoop, specComponents, hd2, hne, hnil, joinAll,
        List.isEmpty_eq_false_iff_exists_mem,
        String.append_empty, String.append_assoc]
    · have hdne : hs.drop charsPerLevel ≠ [] :=
        fun he => hd2 (by rw [he]; rfl)
      have hdev : (hs.drop charsPerLevel).length % 2 = 0 := by
        rw [List.length_drop]
        simp only [charsPerLevel]
        omega
      have ihh := ih (hs.drop charsPerLevel)
        (path ++ String.mk (hs.take charsPerLevel) ++ pathSep) hdev hdne
      simp only [dirForKeyLoop, hd2, if_false]
      rw [ihh]
      simp [specComponents, joinAll, hne,
        List.isEmpty_eq_false_iff_exists_mem, String.append_assoc]

/-- Component lengths of the rule on a 56-character hex string at depth
three: three two-character components and a 50-character tail. -/
theorem specComponents_lengths_56 (hs : List Char) (h : hs.length = 56) :
    (specComponents 3 hs).map String.length = [2, 2, 2, 50] := by
  have h1 : hs ≠ [] := by intro he; rw [he] at h; simp at h
  have l2 : (hs.drop 2).length = 54 := by simp [h]
  have h2 : hs.drop 2 ≠ [] := by intro he; rw [he] at l2; simp at l2
  have l4 : ((hs.drop 2).drop 2).length = 52 := by simp [h]
  have h3 : (hs.drop 2).drop 2 ≠ [] := by intro he; rw [he] at l4; simp at l4
  have l6 : (((hs.drop 2).drop 2).drop 2).length = 50 := by simp [h]
  have h4 : ((hs.drop 2).drop 2).drop 2 ≠ [] := by
    intro he; rw [he] at l6; simp at l6
  simp only [specComponents, charsPerLevel,
    List.isEmpty_eq_false_iff_exists_mem]
  rw [List.isEmpty_eq_false_iff_exists_mem.mpr,
    List.isEmpty_eq_false_iff_exists_mem.mpr,
    List.isEmpty_eq_false_iff_exists_mem.mpr,
    List.isEmpty_eq_false_iff_exists_mem.mpr]
  · simp [String.length, List.length_take, h, l2, l4]
  · exact List.exists_mem_of_ne_nil _ h4
  · exact List.exists_mem_of_ne_nil _ h3
  · exact List.exists_mem_of_ne_nil _ h2
  · exact List.exists_mem_of_ne_nil _ h1

/-- C5. The entry directory path is the root data directory followed by
one component of the first two remaining hex characters per configured
level (stopping early if the hex string is exhausted) and any remaining
hex characters as one final component; for a 28-byte digest (the default
SHA-512/224) at the default depth three this yields three two-character
components and a 50-character tail. -/
theorem dir_for_key_spec (opts : Options) (key : Key)
    (h : opts.hashFunc key ≠ []) :
    GetDirForKey opts key = specDirPath opts key ∧
    (opts.dirLevel = 3 → (opts.hashFunc key).length = 28 →
      (specComponents opts.dirLevel
        (hexEncode (opts.hashFunc key))).map String.length =
        [2, 2, 2, 50]) := by
  have hne : hexEncode (opts.hashFunc key) ≠ [] := by
    intro he
    have hl := hexEncode_length (opts.hashFunc key)
    rw [he] at hl
    have hl0 : (opts.hashFunc key).length = 0 := by
      simp only [List.length_nil] at hl
      omega
    exact h (List.length_eq_zero.mp hl0)
  have heven : (hexEncode (opts.hashFunc key)).length % 2 = 0 := by
    rw [hexEncode_length]; omega
  constructor
  · simpa only [GetDirForKey, specDirPath] using
      dirForKeyLoop_spec opts.dirLevel (hexEncode (opts.hashFunc key))
        opts.dataDir heven hne
  · intro hl3 hl28
    rw [hl3]
    exact specComponents_lengths_56 _ (by rw [hexEncode_length, hl28])

/-- Options with a constant 28-byte digest at the default depth three,
matching the default SHA-512/224 shape. -/
def testOpts28 : Options :=
  ⟨"data/", fun _ => List.replicate 28 171, 3, false, -1⟩

/-- Witness for C5: the theorem applied at the 28-byte fixture. -/
theorem dir_for_key_spec_witness :
    GetDirForKey testOpts28 [1] = specDirPath testOpts28 [1] ∧
    (testOpts28.dirLevel = 3 → (testOpts28.hashFunc [1]).length = 28 →
      (specComponents testOpts28.dirLevel
        (hexEncode (testOpts28.hashFunc [1]))).map String.length =
        [2, 2, 2, 50]) :=
  dir_for_key_spec testOpts28 [1] (by decide)

/-- C6. Hybrid Delete, over the independent results of the two tiers,
returns NoSuchKey exactly when both tiers report not-exist, and
otherwise the combination of the non-not-exist errors: nil when there
are none, the sole error when there is one, and a batch otherwise. -/
theorem hybrid_delete_combines (key : Key) (localRes : Option Err)
    (bucketRes : Option (Bool × String)) :
    hybridDelete key localRes bucketRes =
      specDeleteCombine key localRes bucketRes := by
  cases localRes with
  | none =>
    cases bucketRes with
    | none => rfl
    | some p =>
      rcases p with ⟨ne, m⟩
      cases ne <;> rfl
  | some e =>
    cases e <;> (cases bucketRes with
      | none => rfl
      | some p =>
        rcases p with ⟨ne, m⟩
        cases ne <;> rfl)

/-- A successful Read implies the key file is present with exactly the
requested key bytes. -/
theorem read_ok_keyFile (opts : Options) (fs : FS) (key : Key) (v : Bytes)
    (h : Read opts fs key = Except.ok v) :
    (fs (GetDirForKey opts key)).keyFile = KeyFileState.present key := by
  cases hkf : (fs (GetDirForKey opts key)).keyFile with
  | absent => simp [Read, hkf] at h
  | present old =>
    by_cases he : key = old
    · rw [he]
    · simp [Read, hkf, checkKeyCollision, he] at h
  | statError b => simp [Read, hkf, checkKeyCollision] at h

/-- C7. In the per-key upload, when both local reads and the bucket
write succeed, the local copy is deleted if and only if the CRC-32C of
the re-read value equals the CRC-32C of the pre-upload value; on a match
the entry is removed and no error returned, on a mismatch the local
store is left untouched. -/
theorem upload_crc_guard (opts : Options) (key : Key) (fs1 fs2 : FS)
    (v1 v2 : Bytes) (h1 : Read opts fs1 key = Except.ok v1)
    (h2 : Read opts fs2 key = Except.ok v2) :
    ((uploadKey opts key fs1 fs2 none).deletedLocal = true ↔
      crc32c v2 = crc32c v1) ∧
    (crc32c v2 = crc32c v1 →
      uploadKey opts key fs1 fs2 none =
        ⟨FS.update fs2 (GetDirForKey opts key) Entry.empty, none, true⟩) ∧
    (crc32c v2 ≠ crc32c v1 →
      uploadKey opts key fs1 fs2 none = ⟨fs2, none, false⟩) := by
  have hkf := read_ok_keyFile opts fs2 key v2 h2
  by_cases hc : crc32c v2 = crc32c v1
  · refine ⟨by simp [uploadKey, h1, h2, hc], fun _ => ?_,
      fun hn => absurd hc hn⟩
    simp [uploadKey, h1, h2, hc, Delete, hkf, checkKeyCollision]
  · refine ⟨by simp [uploadKey, h1, h2, hc], fun hcc => absurd hcc hc,
      fun _ => ?_⟩
    simp [uploadKey, h1, h2, hc]

/-- Witness for C7: with the same concrete snapshot at both reads the
CRCs match and the local copy is deleted; the hypotheses are discharged
by evaluation. -/
theorem upload_crc_guard_witness :
    ((uploadKey testOpts [7] (Write testOpts emptyFS [7] [1, 2]).1
        (Write testOpts emptyFS [7] [1, 2]).1 none).deletedLocal = true ↔
      crc32c [1, 2] = crc32c [1, 2]) ∧
    (crc32c [1, 2] = crc32c [1, 2] →
      uploadKey testOpts [7] (Write testOpts emptyFS [7] [1, 2]).1
          (Write testOpts emptyFS [7] [1, 2]).1 none =
        ⟨FS.update (Write testOpts emptyFS [7] [1, 2]).1
          (GetDirForKey testOpts [7]) Entry.empty, none, true⟩) ∧
    (crc32c [1, 2] ≠ crc32c [1, 2] →
      uploadKey testOpts [7] (Write testOpts emptyFS [7] [1, 2]).1
          (Write testOpts emptyFS [7] [1, 2]).1 none =
        ⟨(Write testOpts emptyFS [7] [1, 2]).1, none, false⟩) :=
  upload_crc_guard testOpts [7] (Write testOpts emptyFS [7] [1, 2]).1
    (Write testOpts emptyFS [7] [1, 2]).1 [1, 2] [1, 2] rfl rfl

/-- Counterexample for C9: the displayed message of a batch of two
errors with messages "a" and "b" is not the plain semicolon-joined
concatenation of the member messages; the display carries a count
header. -/
theorem errbatch_message_not_plain_join :
    errBatchMessage ["a", "b"] ≠ joinSemicolon ["a", "b"] := by
  decide

/-- The loop of ErrBatch.Error at a positive index prefixes every
member with a semicolon separator. -/
theorem errBatchLoop_tail (msgs : List String) :
    ∀ (i : Nat) (buf : String), msgs ≠ [] →
    errBatchLoop msgs (i + 1) buf = buf ++ "; " ++ joinSemicolon msgs := by
  induction msgs with
  | nil => intro i buf h; exact absurd rfl h
  | cons m rest ih =>
    intro i buf _
    cases rest with
    | nil => simp [errBatchLoop, joinSemicolon]
    | cons r rs =>
      have hstep : errBatchLoop (m :: r :: rs) (i + 1) buf =
          errBatchLoop (r :: rs) (i + 2) (buf ++ "; " ++ m) := by
        simp [errBatchLoop]
      rw [hstep, ih (i + 1) (buf ++ "; " ++ m) (by simp)]
      simp [joinSemicolon, String.append_assoc]

/-- C9 (amended). For every nonempty batch, the displayed error message
is the header naming the member count ("total N error(s) in this
batch"), a colon separator, and then the member messages joined with
semicolon separators. -/
theorem errbatch_message_amended (msgs : List String) (h : msgs ≠ []) :
    errBatchMessage msgs =
      ("total " ++ toString msgs.length ++ " error(s) in this batch") ++
        ": " ++ joinSemicolon msgs := by
  cases msgs with
  | nil => exact absurd rfl h
  | cons m rest =>
    cases rest with
    | nil =>
      simp [errBatchMessage, errBatchLoop, joinSemicolon,
        String.append_assoc]
    | cons r rs =>
      have hstep : errBatchMessage (m :: r :: rs) =
          errBatchLoop (r :: rs) 1
            (("total " ++ toString (m :: r :: rs).length ++
              " error(s) in this batch") ++ ": " ++ m) := by
        simp [errBatchMessage, errBatchLoop]
      rw [hstep]
      have hloop := errBatchLoop_tail (r :: rs) 0
        (("total " ++ toString (m :: r :: rs).length ++
          " error(s) in this batch") ++ ": " ++ m) (by simp)
      rw [show (0 : Nat) + 1 = 1 from rfl] at hloop
      rw [hloop]
      simp [joinSemicolon, String.append_assoc]

/-- Witness for C9 (amended): the display of the batch of "a" and "b"
evaluated concretely. -/
theorem errbatch_message_amended_witness :
    errBatchMessage ["a", "b"] =
      ("total " ++ toString (["a", "b"] : List String).length ++
        " error(s) in this batch") ++ ": " ++ joinSemicolon ["a", "b"] :=
  errbatch_message_amended ["a", "b"] (by decide)

/-! ## Scan-loop invariant for C8 -/

/-- Invariant of the scan loop: when the scanner is idle, every started
cycle has a scan-end event; while scanning, every earlier cycle does;
and scan starts are always preceded by the previous scan end. -/
def loopInv (s : LoopState) : Prop :=
  (match s.phase with
   | Phase.idle => ∀ c, 1 ≤ c → c ≤ s.cycle → Ev.scanEnd c ∈ s.evLog
   | Phase.scanning _ =>
     ∀ c, 1 ≤ c → c < s.cycle → Ev.scanEnd c ∈ s.evLog) ∧
  scanSequential s

theorem log_split (e ev : Ev) (l l1 l2 : List Ev)
    (h : e :: l = l1 ++ ev :: l2) :
    (l1 = [] ∧ e = ev ∧ l2 = l) ∨
    ∃ l1h, l1 = e :: l1h ∧ l = l1h ++ ev :: l2 := by
  cases l1 with
  | nil =>
    simp only [List.nil_append, List.cons.injEq] at h
    exact Or.inl ⟨rfl, h.1, h.2.symm⟩
  | cons x xs =>
    simp only [List.cons_append, List.cons.injEq] at h
    exact Or.inr ⟨xs, by rw [h.1], h.2⟩

theorem loopInv_init (n : Nat) : loopInv (loopInit n) := by
  constructor
  · intro c h1 h2
    simp only [loopInit] at h2
    omega
  · intro c l1 l2 hc habs
    exact absurd habs.symm (List.append_ne_nil_of_right_ne_nil l1 (by simp))

theorem loopInv_step (s s' : LoopState) (hst : LoopStep s s')
    (hinv : loopInv s) : loopInv s' := by
  obtain ⟨hB, hC⟩ := hinv
  cases hst with
  | tick c w l keys =>
    dsimp only [scanSequential] at hB hC ⊢
    constructor
    · intro c' h1 h2
      dsimp only at h2
      exact List.mem_cons_of_mem _ (hB c' h1 (by omega))
    · intro c0 l1 l2 hc0 hsplit
      rcases log_split _ _ _ _ _ hsplit with ⟨h1, h2, h3⟩ | ⟨l1h, h1, h2⟩
      · have hcc : c0 = c := by
          have := Ev.scanStart.inj h2
          omega
        subst hcc
        subst h3
        exact hB c0 hc0 (le_refl c0)
      · exact hC c0 l1h l2 hc0 h2
  | send c k rest w l i hi =>
    dsimp only [scanSequential] at hB hC ⊢
    constructor
    · intro c' h1 h2
      exact List.mem_cons_of_mem _ (hB c' h1 h2)
    · intro c0 l1 l2 hc0 hsplit
      rcases log_split _ _ _ _ _ hsplit with ⟨h1, h2, h3⟩ | ⟨l1h, h1, h2⟩
      · exact absurd h2 (by simp)
      · exact hC c0 l1h l2 hc0 h2
  | scanRet c w l =>
    dsimp only [scanSequential] at hB hC ⊢
    constructor
    · intro c' h1 h2
      dsimp only at h2
      rcases Nat.lt_or_ge c' c with hlt | hge
      · exact List.mem_cons_of_mem _ (hB c' h1 hlt)
      · have hcc : c' = c := by omega
        subst hcc
        exact List.mem_cons_self _ _
    · intro c0 l1 l2 hc0 hsplit
      rcases log_split _ _ _ _ _ hsplit with ⟨h1, h2, h3⟩ | ⟨l1h, h1, h2⟩
      · exact absurd h2 (by simp)
      · exact hC c0 l1h l2 hc0 h2
  | finish c ph w l i c0 k hi =>
    cases ph with
    | idle =>
      dsimp only [scanSequential] at hB hC ⊢
      constructor
      · intro c' h1 h2
        exact List.mem_cons_of_mem _ (hB c' h1 h2)
      · intro c1 l1 l2 hc1 hsplit
        rcases log_split _ _ _ _ _ hsplit with ⟨h1, h2, h3⟩ | ⟨l1h, h1, h2⟩
        · exact absurd h2 (by simp)
        · exact hC c1 l1h l2 hc1 h2
    | scanning pending =>
      dsimp only [scanSequential] at hB hC ⊢
      constructor
      · intro c' h1 h2
        exact List.mem_cons_of_mem _ (hB c' h1 h2)
      · intro c1 l1 l2 hc1 hsplit
        rcases log_split _ _ _ _ _ hsplit with ⟨h1, h2, h3⟩ | ⟨l1h, h1, h2⟩
        · exact absurd h2 (by simp)
        · exact hC c1 l1h l2 hc1 h2

theorem loopInv_reach (n : Nat) (s : LoopState) (h : LoopReach n s) :
    loopInv s := by
  induction h with
  | refl => exact loopInv_init n
  | tail hab hbc ih => exact loopInv_step _ _ hbc ih

/-- A reachable state of the loop with one worker: the scan of cycle 2
has started while the worker is still busy with the key dispatched in
cycle 1 (its finish event is absent from the log). -/
def sC8 : LoopState :=
  ⟨2, Phase.scanning [], [some (1, ([42] : Key))],
   [Ev.scanStart 2, Ev.scanEnd 1, Ev.disp 1 [42], Ev.scanStart 1]⟩

/-- The four-step trace reaching `sC8`: tick, rendezvous dispatch of the
only key to the only worker, scan return, next tick. -/
theorem reachC8 : LoopReach 1 sC8 :=
  Relation.ReflTransGen.head
    (LoopStep.tick 0 (List.replicate 1 none) [] [[42]])
    (Relation.ReflTransGen.head
      (LoopStep.send 1 [42] [] (List.replicate 1 none)
        [Ev.scanStart 1] 0 rfl)
      (Relation.ReflTransGen.head
        (LoopStep.scanRet 1
          ((List.replicate 1 none).set 0 (some (1, [42])))
          [Ev.disp 1 [42], Ev.scanStart 1])
        (Relation.ReflTransGen.head
          (LoopStep.tick 1
            ((List.replicate 1 none).set 0 (some (1, [42])))
            [Ev.scanEnd 1, Ev.disp 1 [42], Ev.scanStart 1] [])
          Relation.ReflTransGen.refl)))

/-- Counterexample for C8: it is not the case that in every reachable
state of the scan loop every key dispatched during a cycle is finished
before the next cycle scan starts; the reachable state `sC8` has the
cycle-2 scan started while the cycle-1 key [42] is still being
processed. -/
theorem scan_cycles_overlap_counterexample :
    ¬ (∀ (n : Nat) (s : LoopState), LoopReach n s → cycleDrained s) := by
  intro hclaim
  have h := hclaim 1 sC8 reachC8 1 [42] []
    [Ev.scanEnd 1, Ev.disp 1 [42], Ev.scanStart 1] rfl (by decide)
  exact absurd h (by decide)

/-- C8 (amended). In every reachable state of the scan loop, the scan of
cycle c+1 starts only after the scan of cycle c has returned (all of
cycle c keys were handed to workers), although workers may still be
processing keys dispatched in earlier cycles. -/
theorem scan_cycles_sequential (n : Nat) (s : LoopState)
    (h : LoopReach n s) : scanSequential s :=
  (loopInv_reach n s h).2

/-- Witness for C8 (amended): the sequential-scan property at the
concrete reachable state `sC8`. -/
theorem scan_cycles_sequential_witness : scanSequential sC8 :=
  scan_cycles_sequential 1 sC8 reachC8

end Fsdb
